import Mathlib

/-!
Shallow embedding of the fund-analytics pipeline of this repository
(investmentfund.py and its near-duplicate orig_file.py): filename metadata
parsing (fund roster lookup, date-token search and date-layout
disambiguation), dataframe validation, per-file CSV ingestion, the
backward as-of price-reconciliation join, and the performance
(rate-of-return) report.

Modeling conventions:
- pandas tables are association lists of named columns; cells are null,
  numeric, or non-numeric strings (a string cell carries the numeric
  reading pd.to_numeric would give it, if any).
- machine floats are modeled as exact rationals, except where the float
  behavior is semantically load-bearing: division by zero in the
  rate-of-return computation is modeled explicitly by the FVal type
  (nan / minus infinity / finite / plus infinity), mirroring IEEE
  division of a finite numerator by positive zero.
- fallible Python code (raising) is modeled with Except / Option.
-/

namespace InvestmentFunds

/-- The fixed roster of fund names (self.fund_names in investmentfund.py,
module-level fund_names in orig_file.py). -/
def fund_names : List String :=
  ["Whitestone", "Wallington", "Catalysm", "Belaware", "Gohen",
   "Applebead", "Magnum", "Trustmind", "Leeder", "Virtous"]

/-- Substring test on character lists: Python "needle in haystack". -/
def containsSub (needle : List Char) : List Char → Bool
  | [] => needle.isEmpty
  | c :: t => needle.isPrefixOf (c :: t) || containsSub needle t

/-- Case-insensitive roster test: name.lower() in filename.lower(). -/
def nameMatches (name filename : String) : Bool :=
  containsSub (name.data.map Char.toLower) (filename.data.map Char.toLower)

/-- Fund-name resolution: first roster entry whose lowercase form occurs in
the lowercase file name (the for/break loop of parse_filename). -/
def findFundName (filename : String) : Option String :=
  fund_names.find? (fun n => nameMatches n filename)

/-- A calendar date as produced by datetime.strptime. -/
structure Date where
  year : Nat
  month : Nat
  day : Nat
deriving DecidableEq, Repr

/-- The single-character delimiters of the date regex, the class
[-._/+\s] (ASCII whitespace; non-ASCII whitespace never occurs in the
file names considered here). -/
def isDelim (c : Char) : Bool :=
  c == '-' || c == '.' || c == '_' || c == '/' || c == '+' ||
  c == ' ' || c == '\t' || c == '\n' || c == '\r' || c == '\x0b' || c == '\x0c'

/-- First alternative of the date regex: eight contiguous digits. -/
def matchEight (cs : List Char) : Option (List Char) :=
  let d := cs.take 8
  if d.length == 8 && d.all Char.isDigit then some d else none

/-- Second alternative of the date regex,
two-to-four digits / delimiter / two digits / delimiter / two-to-four
digits, matched greedily at the head of cs. Backtracking on the first
greedy group can never recover (a shorter digit group is followed by a
digit, not a delimiter), so the group lengths are the maximal digit runs
capped at four. -/
def matchDelimited (cs : List Char) : Option (List Char) :=
  let r1 := (cs.takeWhile Char.isDigit).length
  if 2 ≤ r1 ∧ r1 ≤ 4 then
    match cs.drop r1 with
    | d1 :: rest1 =>
      if isDelim d1 then
        if (rest1.take 2).length == 2 && (rest1.take 2).all Char.isDigit then
          match rest1.drop 2 with
          | d2 :: rest2 =>
            if isDelim d2 then
              let r3 := min ((rest2.takeWhile Char.isDigit).length) 4
              if 2 ≤ r3 then
                some (cs.take r1 ++ d1 :: (rest1.take 2 ++ d2 :: rest2.take r3))
              else none
            else none
          | [] => none
        else none
      else none
    | [] => none
  else none

/-- re.search for the date pattern: leftmost match, first alternative
tried first at each position. -/
def searchDate : List Char → Option (List Char)
  | [] => none
  | c :: rest =>
    match matchEight (c :: rest) with
    | some t => some t
    | none =>
      match matchDelimited (c :: rest) with
      | some t => some t
      | none => searchDate rest

/-- re.sub replacing every non-digit character of the token with a hyphen. -/
def normalizeTok (tok : List Char) : List Char :=
  tok.map (fun c => if c.isDigit then c else '-')

/-- Numeric value of a digit string. -/
def natOfDigits (l : List Char) : Nat :=
  l.foldl (fun a c => 10 * a + (c.toNat - 48)) 0

/-- Gregorian leap-year rule used by datetime. -/
def isLeap (y : Nat) : Bool :=
  y % 4 == 0 && (y % 100 != 0 || y % 400 == 0)

/-- Length of a month as validated by datetime. -/
def daysInMonth (y m : Nat) : Nat :=
  if m == 2 then (if isLeap y then 29 else 28)
  else if m == 4 || m == 6 || m == 9 || m == 11 then 30
  else 31

/-- Validity of year/month/day exactly as datetime's constructor checks it
(MINYEAR 1, MAXYEAR 9999). -/
def validDate (y m d : Nat) : Bool :=
  decide (1 ≤ y) && decide (y ≤ 9999) && decide (1 ≤ m) &&
  decide (m ≤ 12) && decide (1 ≤ d) && decide (d ≤ daysInMonth y m)

def mkDate (y m d : Nat) : Option Date :=
  if validDate y m d then some ⟨y, m, d⟩ else none

/-- Split a character list at hyphens (the only separator present in the
normalized token). -/
def splitHy : List Char → List (List Char)
  | [] => [[]]
  | c :: rest =>
    if c = '-' then [] :: splitHy rest
    else
      match splitHy rest with
      | g :: gs => (c :: g) :: gs
      | [] => [[c]]

/-- Exactly three hyphen-separated groups, as the layouts with separators
require. -/
def groups3 (s : List Char) : Option (List Char × List Char × List Char) :=
  match splitHy s with
  | [a, b, c] => some (a, b, c)
  | _ => none

/-- A regex field of strptime: between lo and hi digits. -/
def digitGroup (lo hi : Nat) (g : List Char) : Bool :=
  g.all Char.isDigit && decide (lo ≤ g.length) && decide (g.length ≤ hi)

/-- datetime.strptime with layout day-month-year. CPython compiles %d to
the pattern 3[01]|[12]\d|0[1-9]|[1-9]| [1-9] and %m to
1[0-2]|0[1-9]|[1-9]: on the all-digit groups between separators this
amounts to one or two digits whose value lies in range, which the validity
check below enforces with the same outcome. %Y is exactly four digits. -/
def strptimeDMY (s : List Char) : Option Date :=
  match groups3 s with
  | some (a, b, c) =>
    if digitGroup 1 2 a && digitGroup 1 2 b && digitGroup 4 4 c then
      mkDate (natOfDigits c) (natOfDigits b) (natOfDigits a)
    else none
  | none => none

/-- datetime.strptime with layout month-day-year. -/
def strptimeMDY (s : List Char) : Option Date :=
  match groups3 s with
  | some (a, b, c) =>
    if digitGroup 1 2 a && digitGroup 1 2 b && digitGroup 4 4 c then
      mkDate (natOfDigits c) (natOfDigits a) (natOfDigits b)
    else none
  | none => none

/-- datetime.strptime with layout year-month-day. -/
def strptimeYMD (s : List Char) : Option Date :=
  match groups3 s with
  | some (a, b, c) =>
    if digitGroup 4 4 a && digitGroup 1 2 b && digitGroup 1 2 c then
      mkDate (natOfDigits a) (natOfDigits b) (natOfDigits c)
    else none
  | none => none

/-- The two-digit alternatives of CPython's %m pattern 1[0-2]|0[1-9]. -/
def monthTake2 (l : List Char) : Option (Nat × List Char) :=
  match l with
  | a :: b :: rest =>
    if (a = '1' ∧ '0' ≤ b ∧ b ≤ '2') ∨ (a = '0' ∧ '1' ≤ b ∧ b ≤ '9') then
      some (natOfDigits [a, b], rest)
    else none
  | _ => none

/-- The one-digit alternative [1-9] shared by %m and %d. -/
def take1to9 (l : List Char) : Option (Nat × List Char) :=
  match l with
  | a :: rest => if '1' ≤ a ∧ a ≤ '9' then some (natOfDigits [a], rest) else none
  | _ => none

/-- The two-digit alternatives of CPython's %d pattern
3[01]|[12]\d|0[1-9]. -/
def dayTake2 (l : List Char) : Option (Nat × List Char) :=
  match l with
  | a :: b :: rest =>
    if (a = '3' ∧ (b = '0' ∨ b = '1')) ∨ ((a = '1' ∨ a = '2') ∧ b.isDigit) ∨
       (a = '0' ∧ '1' ≤ b ∧ b ≤ '9') then
      some (natOfDigits [a, b], rest)
    else none
  | _ => none

/-- Regex backtracking for the month and day fields of %Y%m%d: the month
prefers its two-digit alternatives, then one digit; for each month choice
the day prefers two digits, then one. The first combination that matches
is the one the regex engine reports. -/
def compactMD (l : List Char) : Option (Nat × Nat × List Char) :=
  match monthTake2 l with
  | some (m, r) =>
    (match dayTake2 r with
     | some (d, r2) => some (m, d, r2)
     | none =>
       match take1to9 r with
       | some (d, r2) => some (m, d, r2)
       | none =>
         match take1to9 l with
         | some (m1, r1) =>
           (match dayTake2 r1 with
            | some (d, r2) => some (m1, d, r2)
            | none => (take1to9 r1).map (fun p => (m1, p.1, p.2)))
         | none => none)
  | none =>
    match take1to9 l with
    | some (m1, r1) =>
      (match dayTake2 r1 with
       | some (d, r2) => some (m1, d, r2)
       | none => (take1to9 r1).map (fun p => (m1, p.1, p.2)))
    | none => none

/-- datetime.strptime with the compact year-month-day layout without
separators: four year digits, then the month/day fields, and strptime
finally requires the whole string to have been consumed. -/
def strptimeCompact (s : List Char) : Option Date :=
  if s.all Char.isDigit then
    match s with
    | y1 :: y2 :: y3 :: y4 :: rest =>
      (match compactMD rest with
       | some (m, d, []) => mkDate (natOfDigits [y1, y2, y3, y4]) m d
       | _ => none)
    | _ => none
  else none

/-- The i-th candidate layout, in the order the source tries them. -/
def candParse : Nat → List Char → Option Date
  | 0, s => strptimeDMY s
  | 1, s => strptimeMDY s
  | 2, s => strptimeYMD s
  | 3, s => strptimeCompact s
  | _, _ => none

/-- The acceptance filter of the loop body: a parse is kept only when the
resulting day-of-month is at least 28. -/
def accepted (o : Option Date) : Option Date :=
  match o with
  | some d => if 28 ≤ d.day then some d else none
  | none => none

/-- Candidate i parses the token with day-of-month at least 28. -/
def candAccepts (i : Nat) (s : List Char) : Bool :=
  (accepted (candParse i s)).isSome

/-- The format loop of parse_filename: first accepted candidate wins. -/
def tryDateFormats (s : List Char) : Option Date :=
  match accepted (candParse 0 s) with
  | some d => some d
  | none =>
    match accepted (candParse 1 s) with
    | some d => some d
    | none =>
      match accepted (candParse 2 s) with
      | some d => some d
      | none => accepted (candParse 3 s)

/-- The output format string of parse_filename: month/day/year without
leading zeros. -/
def formatDate (d : Date) : String :=
  toString d.month ++ "/" ++ toString d.day ++ "/" ++ toString d.year

/-- InvestmentFunds.parse_filename: fund name by roster lookup, report
date by regex search, normalization and the four-layout loop. Total: no
roster match and no date token are reported as none. -/
def parse_filename (filename : String) : Option String × Option String :=
  let fund_name := findFundName filename
  match searchDate filename.data with
  | none => (fund_name, none)
  | some tok => (fund_name, (tryDateFormats (normalizeTok tok)).map formatDate)

/-- Module-level parse_filename of orig_file.py. It only assigns fund_name
inside the roster loop, and calls match.group(0) unconditionally: with no
date token it raises AttributeError, and with no roster match it raises
UnboundLocalError when returning. -/
def parse_filename_orig (filename : String) :
    Except String (Option String × Option String) :=
  let fund? := findFundName filename
  match searchDate filename.data with
  | none => .error "AttributeError"
  | some tok =>
    match fund? with
    | none => .error "UnboundLocalError"
    | some f =>
      match tryDateFormats (normalizeTok tok) with
      | some d => .ok (some f, some (formatDate d))
      | none => .ok (some f, none)

/-- A pandas cell. A non-numeric (object) cell carries the numeric reading
pd.to_numeric would give it, if any, so that coercion with errors equal to
coerce can be modeled without a string-to-float parser. -/
inductive Cell where
  | null
  | num (q : Rat)
  | str (numView : Option Rat)
deriving DecidableEq, Repr

/-- One named dataframe column with its dtype flag
(pd.api.types.is_numeric_dtype) and its cells. -/
structure Column where
  numericDtype : Bool
  cells : List Cell
deriving DecidableEq, Repr

/-- A dataframe as an association list of named columns. -/
abbrev DataFrame := List (String × Column)

/-- Column access df[c]: first column of that name, none models KeyError. -/
def findCol (df : DataFrame) (c : String) : Option Column :=
  match df with
  | [] => none
  | (n, col) :: rest => if n = c then some col else findCol rest c

/-- In-place column assignment df[c] = col. -/
def updateCol (df : DataFrame) (c : String) (col : Column) : DataFrame :=
  df.map (fun p => if p.1 = c then (p.1, col) else p)

/-- The eight required snapshot columns (self.fund_cols). -/
def fund_cols : List String :=
  ["FINANCIAL TYPE", "SYMBOL", "SECURITY NAME", "ISIN",
   "PRICE", "QUANTITY", "REALISED P/L", "MARKET VALUE"]

/-- The four numeric columns (self.numeric_cols). -/
def numeric_cols : List String :=
  ["PRICE", "QUANTITY", "REALISED P/L", "MARKET VALUE"]

/-- The warnings validate_dataframe logs. -/
inductive Warning where
  | missingCols (cols : List String)
  | notNumeric (col : String)
  | nullPrices
deriving DecidableEq, Repr

/-- pd.to_numeric with errors equal to coerce, applied to one cell:
invalid strings become null. -/
def coerceCell : Cell → Cell
  | .str v =>
    (match v with
     | some q => .num q
     | none => .null)
  | c => c

/-- The dtype loop of validate_dataframe: for each numeric column, access
df[col] (KeyError when absent), and coerce it when its dtype is not
numeric, logging a warning. -/
def validateNumeric : DataFrame → List String → Except String (DataFrame × List Warning)
  | df, [] => .ok (df, [])
  | df, c :: rest =>
    match findCol df c with
    | none => .error ("KeyError: " ++ c)
    | some col =>
      if col.numericDtype then validateNumeric df rest
      else
        match validateNumeric
            (updateCol df c { numericDtype := true, cells := col.cells.map coerceCell })
            rest with
        | .ok (df', ws) => .ok (df', Warning.notNumeric c :: ws)
        | .error e => .error e

/-- InvestmentFunds.validate_dataframe. The Python function returns the
bare boolean True and logs warnings as a side effect; the model returns
the boolean together with the logged warnings and the (mutated) table,
and an error models an uncaught exception escaping the function. -/
def validate_dataframe (df : DataFrame) (fund_name : Option String) (filename : String) :
    Except String (Bool × List Warning × DataFrame) :=
  let missing := fund_cols.filter (fun c => decide (c ∉ df.map Prod.fst))
  let w0 : List Warning := if missing.isEmpty then [] else [.missingCols missing]
  match validateNumeric df numeric_cols with
  | .error e => .error e
  | .ok (df', ws) =>
    match findCol df' "PRICE" with
    | none => .error "KeyError: PRICE"
    | some priceCol =>
      let w2 : List Warning := if priceCol.cells.contains Cell.null then [.nullPrices] else []
      .ok (true, w0 ++ ws ++ w2, df')

/-- One ingested holdings row: the tagged fund name and report date
(df assignments before to_sql) plus the data cells by column name. -/
structure Row where
  fund : Option String
  reportDate : Option String
  cells : List (String × Cell)
deriving DecidableEq, Repr

/-- Number of rows of a dataframe (all columns share one length). -/
def nRows (df : DataFrame) : Nat :=
  match df with
  | [] => 0
  | (_, col) :: _ => col.cells.length

/-- The rows appended by df.to_sql after tagging fund name and report
date. -/
def rowsOf (df : DataFrame) (fund rdate : Option String) : List Row :=
  (List.range (nRows df)).map (fun i =>
    { fund := fund, reportDate := rdate,
      cells := df.map (fun p => (p.1, p.2.cells.getD i Cell.null)) })

/-- One snapshot file of the input directory: its name and its parsed
table; none models pd.read_csv raising on a corrupt file. -/
structure SnapshotFile where
  name : String
  content : Option DataFrame
deriving DecidableEq, Repr

/-- The loop body of InvestmentFunds.ingest_csv for one file: parse the
file name, load the table, validate, tag and collect the rows. An error
is an exception reaching the per-file handler; a False validation result
would skip the file without rows (the continue branch). -/
def processFile (f : SnapshotFile) : Except String (List Row) :=
  let meta := parse_filename f.name
  match f.content with
  | none => .error ("Failed to process " ++ f.name ++ ": read_csv")
  | some df =>
    match validate_dataframe df meta.1 f.name with
    | .error e => .error ("Failed to process " ++ f.name ++ ": " ++ e)
    | .ok (ok, _, df') =>
      if ok then .ok (rowsOf df' meta.1 meta.2) else .ok []

/-- InvestmentFunds.ingest_csv over a directory listing: the store starts
empty (drop and recreate), each file is processed inside try/except, an
exception is logged and the file skipped. Returns the holdings store and
the error log. -/
def ingest_csv (files : List SnapshotFile) : List Row × List String :=
  files.foldl (fun acc f =>
    match processFile f with
    | .ok rows => (acc.1 ++ rows, acc.2)
    | .error e => (acc.1, acc.2 ++ [e])) ([], [])

/-- The loop body of orig_file.py's ingest_csv: identical except that
parse_filename is the module-level one, which can itself raise. -/
def processFile_orig (f : SnapshotFile) : Except String (List Row) :=
  match parse_filename_orig f.name with
  | .error e => .error e
  | .ok meta =>
    match f.content with
    | none => .error "read_csv"
    | some df =>
      match validate_dataframe df meta.1 f.name with
      | .error e => .error e
      | .ok (ok, _, df') =>
        if ok then .ok (rowsOf df' meta.1 meta.2) else .ok []

/-- orig_file.py's ingest_csv has no try/except around the loop body: the
first exception aborts the whole loop. The result is the rows ingested
before the abort together with the aborting exception, if any. -/
def ingest_csv_orig : List SnapshotFile → List Row × Option String
  | [] => ([], none)
  | f :: rest =>
    match processFile_orig f with
    | .error e => ([], some e)
    | .ok rows =>
      let r := ingest_csv_orig rest
      (rows ++ r.1, r.2)

/-! Generic stable insertion sort on a boolean relation, modeling
DataFrame.sort_values (only sortedness and the multiset of rows matter to
the claims; pandas' default quicksort is unstable on ties, and no claim
depends on tie order). -/

/-- Insert one element in front of the first element it is le-related to. -/
def insertLe {α : Type} (le : α → α → Bool) (x : α) : List α → List α
  | [] => [x]
  | y :: ys => if le x y then x :: y :: ys else y :: insertLe le x ys

/-- Sort a list by the boolean relation le. -/
def sortLe {α : Type} (le : α → α → Bool) : List α → List α
  | [] => []
  | x :: xs => insertLe le x (sortLe le xs)

/-- Last element of a list, modeling the row merge_asof and groupby shift
pick inside a sorted group. -/
def lastOf {α : Type} : List α → Option α
  | [] => none
  | [x] => some x
  | _ :: y :: t => lastOf (y :: t)

/-- One master price observation of the unioned bond/equity stream:
identifier (ISIN for bond_prices rows, SYMBOL for equity_prices rows),
price, and the parsed DATETIME modeled as an integer time point. -/
structure Obs where
  ident : String
  masterPrice : Option Rat
  dt : Int
deriving DecidableEq, Repr

/-- One holdings row as read back for reconciliation: SYMBOL, ISIN and
PRICE may be null; dt is the parsed REPORT DATE as an integer time point
(the claims concern holdings whose report date parses). -/
structure Holding where
  symbol : Option String
  isin : Option String
  price : Option Rat
  dt : Int
deriving DecidableEq, Repr

/-- The matching identifier: SYMBOL filled with ISIN where null. -/
def identOf (h : Holding) : Option String :=
  match h.symbol with
  | some s => some s
  | none => h.isin

/-- An observation is eligible for a holding when it carries the holding's
identifier and is not after the holding's timestamp (merge_asof with
direction backward and allow_exact_matches). A holding with neither
SYMBOL nor ISIN matches nothing. -/
def obsMatches (o : Obs) (h : Holding) : Bool :=
  (match identOf h with
   | some a => decide (a = o.ident)
   | none => false) && decide (o.dt ≤ h.dt)

/-- The backward as-of match: the last eligible observation of the
timestamp-sorted master stream. -/
def matchObs (master : List Obs) (h : Holding) : Option Obs :=
  lastOf (master.filter (fun o => obsMatches o h))

/-- One output row of the reconciliation report. -/
structure ReconRow where
  holding : Holding
  masterPrice : Option Rat
  priceDiff : Option Rat
deriving DecidableEq, Repr

/-- Arithmetic on nullable floats: NaN propagates. -/
def subOpt (a b : Option Rat) : Option Rat :=
  match a, b with
  | some p, some q => some (p - q)
  | _, _ => none

/-- InvestmentFunds.generate_reconciliation_report: union the two price
streams, sort both sides by timestamp, merge_asof backward on the
identifier, and append the price difference column. -/
def generate_reconciliation_report (bonds equities : List Obs) (holdings : List Holding) :
    List ReconRow :=
  let master := sortLe (fun a b => decide (a.dt ≤ b.dt)) (bonds ++ equities)
  let fund_df := sortLe (fun a b => decide (a.dt ≤ b.dt)) holdings
  fund_df.map (fun h =>
    let mp := (matchObs master h).bind Obs.masterPrice
    { holding := h, masterPrice := mp, priceDiff := subOpt h.price mp })

/-- One holdings row as read for the performance report: FUND NAME and
REPORT DATE may be null (dt none models NaT), the numeric columns may be
null. -/
structure PerfRow where
  fund : Option String
  dt : Option Int
  marketValue : Option Rat
  realised : Option Rat
deriving DecidableEq, Repr

/-- One monthly aggregate row: the groupby key and the two sums. The
source groups by FUND NAME, dt and REPORT DATE; the stored REPORT DATE
string is determined by dt (parse_filename writes a canonical format), so
the key is modeled as the pair. -/
structure Monthly where
  fund : String
  dt : Int
  mv : Rat
  pl : Rat
deriving DecidableEq, Repr

/-- The groupby key of one row; none when FUND NAME is null or REPORT
DATE is NaT — pandas groupby drops such rows. -/
def rowKey (r : PerfRow) : Option (String × Int) :=
  match r.fund, r.dt with
  | some f, some t => some (f, t)
  | _, _ => none

/-- The distinct group keys, in first-occurrence order (the later sort
makes the order irrelevant). -/
def groupKeys (rows : List PerfRow) : List (String × Int) :=
  (rows.filterMap rowKey).dedup

/-- The rows of one group. -/
def groupRows (rows : List PerfRow) (k : String × Int) : List PerfRow :=
  rows.filter (fun r => rowKey r = some k)

/-- groupby(...).agg(sum): pandas sums skip nulls, so a null contributes
zero. -/
def sumMV (l : List PerfRow) : Rat :=
  l.foldl (fun a r => a + r.marketValue.getD 0) 0

def sumPL (l : List PerfRow) : Rat :=
  l.foldl (fun a r => a + r.realised.getD 0) 0

/-- The monthly table: one row per (fund, period) with summed market
value and realised P/L. -/
def monthlyAgg (rows : List PerfRow) : List Monthly :=
  (groupKeys rows).map (fun k =>
    { fund := k.1, dt := k.2, mv := sumMV (groupRows rows k), pl := sumPL (groupRows rows k) })

/-- sort_values by FUND NAME then dt. -/
def monthlyLe (a b : Monthly) : Bool :=
  decide (a.fund < b.fund) || (decide (a.fund = b.fund) && decide (a.dt ≤ b.dt))

def sortedMonthly (rows : List PerfRow) : List Monthly :=
  sortLe monthlyLe (monthlyAgg rows)

/-- groupby shift: the market value of the last earlier row with the same
fund, in current row order. -/
def prevMV (pre : List Monthly) (f : String) : Option Rat :=
  (lastOf (pre.filter (fun q => decide (q.fund = f)))).map Monthly.mv

/-- Walk the monthly table accumulating the processed prefix, pairing each
row with its shifted starting market value. -/
def addStarting : List Monthly → List Monthly → List (Monthly × Option Rat)
  | _, [] => []
  | pre, r :: rest => (r, prevMV pre r.fund) :: addStarting (pre ++ [r]) rest

/-- A float value of the ROR column: the computation divides finite
float64 values, so the possible results are NaN (undefined starting
value, or zero over zero), signed infinities (nonzero over zero), and
finite values. -/
inductive FVal where
  | nan
  | negInf
  | real (q : Rat)
  | posInf
deriving DecidableEq, Repr

/-- The ROR formula (MARKET VALUE - STARTING_MV + REALISED P/L) /
STARTING_MV under IEEE float semantics: an undefined starting value gives
NaN; a zero starting value gives NaN when the numerator is zero and a
signed infinity otherwise; otherwise the exact quotient. -/
def rorOf (mv pl : Rat) : Option Rat → FVal
  | none => .nan
  | some s =>
    if s = 0 then
      (let n := mv - s + pl
       if n = 0 then .nan else if 0 < n then .posInf else .negInf)
    else .real ((mv - s + pl) / s)

/-- One row of the performance table after the ROR column is added. -/
structure PerfEntry where
  fund : String
  dt : Int
  mv : Rat
  pl : Rat
  startingMV : Option Rat
  ror : FVal
deriving DecidableEq, Repr

def entryOf (p : Monthly × Option Rat) : PerfEntry :=
  { fund := p.1.fund, dt := p.1.dt, mv := p.1.mv, pl := p.1.pl,
    startingMV := p.2, ror := rorOf p.1.mv p.1.pl p.2 }

/-- The monthly table with STARTING_MV and ROR columns. -/
def perfEntries (rows : List PerfRow) : List PerfEntry :=
  (addStarting [] (sortedMonthly rows)).map entryOf

/-- dropna on the ROR column: only NaN is dropped; infinities survive. -/
def keptEntries (rows : List PerfRow) : List PerfEntry :=
  (perfEntries rows).filter (fun e => e.ror != FVal.nan)

/-- Float comparison for the ROR sort. NaN cannot occur here (dropna runs
first); it is placed at the bottom to make the relation total. -/
def fvalLe : FVal → FVal → Bool
  | .nan, _ => true
  | _, .nan => false
  | .negInf, _ => true
  | _, .negInf => false
  | .real a, .real b => decide (a ≤ b)
  | .real _, .posInf => true
  | .posInf, .real _ => false
  | .posInf, .posInf => true

/-- sort_values by dt ascending then ROR descending. -/
def bestLe (a b : PerfEntry) : Bool :=
  decide (a.dt < b.dt) || (decide (a.dt = b.dt) && fvalLe b.ror a.ror)

/-- drop_duplicates on a key: keep the first occurrence of each key,
preserving order. -/
def dedupByKey {α β : Type} [DecidableEq β] (key : α → β) : List α → List α
  | [] => []
  | x :: xs => x :: dedupByKey key (xs.filter (fun y => decide (key y ≠ key x)))
termination_by l => l.length
decreasing_by
  simp only [List.length_cons]
  exact Nat.lt_succ_of_le (List.length_filter_le _ _)

/-- InvestmentFunds.generate_performance_report: aggregate, sort, shift,
compute ROR, drop NaN rows, sort by period and descending ROR, and keep
the top row per period. -/
def generate_performance_report (rows : List PerfRow) : List PerfEntry :=
  dedupByKey (fun e => e.dt) (sortLe bestLe (keptEntries rows))

/-! Helper lemmas about the list operations used by the pipeline. -/

theorem lastOf_cons_cons {α : Type} (a b : α) (t : List α) :
    lastOf (a :: b :: t) = lastOf (b :: t) := rfl

theorem lastOf_eq_none {α : Type} : ∀ l : List α, lastOf l = none ↔ l = []
  | [] => by simp [lastOf]
  | [x] => by simp [lastOf]
  | a :: b :: t => by
    rw [lastOf_cons_cons]
    simp [lastOf_eq_none (b :: t)]

theorem lastOf_mem {α : Type} : ∀ (l : List α) (x : α), lastOf l = some x → x ∈ l
  | [], x, h => by simp [lastOf] at h
  | [y], x, h => by
    simp [lastOf] at h
    simp [h]
  | a :: b :: t, x, h => by
    rw [lastOf_cons_cons] at h
    exact List.mem_cons_of_mem a (lastOf_mem (b :: t) x h)

theorem lastOf_ge {α : Type} (le : α → α → Bool) :
    ∀ l : List α, l.Pairwise (fun a b => le a b = true) →
      ∀ x y, x ∈ l → lastOf l = some y → x = y ∨ le x y = true
  | [], _, x, _, hx, _ => absurd hx (List.not_mem_nil x)
  | [a], _, x, y, hx, hy => by
    simp [lastOf] at hy
    rcases List.mem_singleton.mp hx with rfl
    exact Or.inl hy
  | a :: b :: t, hp, x, y, hx, hy => by
    rw [lastOf_cons_cons] at hy
    rcases List.pairwise_cons.mp hp with ⟨ha, hp'⟩
    rcases List.mem_cons.mp hx with rfl | hx'
    · exact Or.inr (ha y (lastOf_mem (b :: t) y hy))
    · exact lastOf_ge le (b :: t) hp' x y hx' hy

theorem insertLe_perm {α : Type} (le : α → α → Bool) (x : α) :
    ∀ l : List α, (insertLe le x l).Perm (x :: l)
  | [] => List.Perm.refl _
  | y :: ys => by
    by_cases h : le x y = true
    · simp [insertLe, h]
    · simp only [insertLe, if_neg h]
      exact ((insertLe_perm le x ys).cons y).trans (List.Perm.swap x y ys)

theorem sortLe_perm {α : Type} (le : α → α → Bool) : ∀ l : List α, (sortLe le l).Perm l
  | [] => List.Perm.refl _
  | x :: xs => (insertLe_perm le x (sortLe le xs)).trans ((sortLe_perm le xs).cons x)

theorem insertLe_pairwise {α : Type} (le : α → α → Bool)
    (htot : ∀ a b, le a b = true ∨ le b a = true)
    (htr : ∀ a b c, le a b = true → le b c = true → le a c = true)
    (x : α) : ∀ l : List α, l.Pairwise (fun a b => le a b = true) →
      (insertLe le x l).Pairwise (fun a b => le a b = true)
  | [], _ => by simp [insertLe]
  | y :: ys, hp => by
    rcases List.pairwise_cons.mp hp with ⟨hy, hys⟩
    by_cases h : le x y = true
    · simp only [insertLe, if_pos h]
      refine List.pairwise_cons.mpr ⟨?_, hp⟩
      intro z hz
      rcases List.mem_cons.mp hz with rfl | hz'
      · exact h
      · exact htr x y z h (hy z hz')
    · simp only [insertLe, if_neg h]
      have hyx : le y x = true := (htot x y).resolve_left h
      refine List.pairwise_cons.mpr ⟨?_, insertLe_pairwise le htot htr x ys hys⟩
      intro z hz
      rcases List.mem_cons.mp ((insertLe_perm le x ys).mem_iff.mp hz) with rfl | hz'
      · exact hyx
      · exact hy z hz'

theorem sortLe_pairwise {α : Type} (le : α → α → Bool)
    (htot : ∀ a b, le a b = true ∨ le b a = true)
    (htr : ∀ a b c, le a b = true → le b c = true → le a c = true) :
    ∀ l : List α, (sortLe le l).Pairwise (fun a b => le a b = true)
  | [] => List.Pairwise.nil
  | x :: xs => insertLe_pairwise le htot htr x _ (sortLe_pairwise le htot htr xs)

theorem mem_of_mem_dedupByKey {α β : Type} [DecidableEq β] (key : α → β) :
    ∀ (l : List α) (x : α), x ∈ dedupByKey key l → x ∈ l
  | [], x, h => by simp [dedupByKey] at h
  | a :: l, x, h => by
    rw [dedupByKey] at h
    rcases List.mem_cons.mp h with rfl | h'
    · exact List.mem_cons_self _ _
    · exact List.mem_cons_of_mem a
        (List.mem_of_mem_filter (mem_of_mem_dedupByKey key _ x h'))
termination_by l => l.length
decreasing_by
  simp only [List.length_cons]
  exact Nat.lt_succ_of_le (List.length_filter_le _ _)

theorem dedupByKey_pairwise_ne {α β : Type} [DecidableEq β] (key : α → β) :
    ∀ l : List α, (dedupByKey key l).Pairwise (fun a b => key a ≠ key b)
  | [] => by simp [dedupByKey]
  | a :: l => by
    rw [dedupByKey]
    refine List.pairwise_cons.mpr ⟨?_, dedupByKey_pairwise_ne key _⟩
    intro b hb
    have hba : key b ≠ key a :=
      of_decide_eq_true (List.mem_filter.mp (mem_of_mem_dedupByKey key _ b hb)).2
    exact fun hab => hba hab.symm
termination_by l => l.length
decreasing_by
  simp only [List.length_cons]
  exact Nat.lt_succ_of_le (List.length_filter_le _ _)

theorem dedupByKey_best {α β : Type} [DecidableEq β] (key : α → β) (R : α → α → Prop) :
    ∀ l : List α, l.Pairwise R → ∀ b, b ∈ dedupByKey key l →
      ∀ q, q ∈ l → key q = key b → q = b ∨ R b q
  | [], _, b, hb, _, _, _ => by simp [dedupByKey] at hb
  | a :: l, hp, b, hb, q, hq, hk => by
    rw [dedupByKey] at hb
    rcases List.pairwise_cons.mp hp with ⟨ha, hp'⟩
    rcases List.mem_cons.mp hb with rfl | hb'
    · rcases List.mem_cons.mp hq with rfl | hq'
      · exact Or.inl rfl
      · exact Or.inr (ha q hq')
    · have hba : key b ≠ key a :=
        of_decide_eq_true (List.mem_filter.mp (mem_of_mem_dedupByKey key _ b hb')).2
      rcases List.mem_cons.mp hq with rfl | hq'
      · exact absurd hk (fun h => hba h.symm)
      · have hqf : q ∈ l.filter (fun y => decide (key y ≠ key a)) :=
          List.mem_filter.mpr ⟨hq', decide_eq_true (fun h => hba (hk ▸ h))⟩
        exact dedupByKey_best key R _ (hp'.filter _) b hb' q hqf hk
termination_by l => l.length
decreasing_by
  simp only [List.length_cons]
  exact Nat.lt_succ_of_le (List.length_filter_le _ _)

theorem find?_first {α : Type} (p : α → Bool) :
    ∀ l : List α, l.Nodup → ∀ m, l.find? p = some m →
      ∀ l1 l2, l = l1 ++ m :: l2 → ∀ x ∈ l1, p x = false
  | [], _, m, h, _, _, _, _, _ => by simp at h
  | a :: l, hnd, m, h, l1, l2, hdecomp, x, hx => by
    rcases List.nodup_cons.mp hnd with ⟨hal, hl⟩
    cases l1 with
    | nil => exact absurd hx (List.not_mem_nil x)
    | cons y l1' =>
      rw [List.cons_append] at hdecomp
      injection hdecomp with h1 h2
      subst h1
      by_cases hpa : p a = true
      · rw [List.find?_cons_of_pos _ hpa] at h
        injection h with h3
        subst h3
        exact absurd (by rw [h2]; exact List.mem_append_right _ (List.mem_cons_self a l2)) hal
      · rw [List.find?_cons_of_neg _ hpa] at h
        rcases List.mem_cons.mp hx with rfl | hx'
        · simpa using hpa
        · exact find?_first p l hl m h l1' l2 h2 x hx'

theorem addStarting_mem :
    ∀ (l pre : List Monthly) (p : Monthly × Option Rat), p ∈ addStarting pre l →
      ∃ l1 l2, l = l1 ++ p.1 :: l2 ∧ p.2 = prevMV (pre ++ l1) p.1.fund
  | [], _, p, h => by simp [addStarting] at h
  | r :: rest, pre, p, h => by
    rw [addStarting] at h
    rcases List.mem_cons.mp h with rfl | h'
    · exact ⟨[], rest, by simp⟩
    · rcases addStarting_mem rest (pre ++ [r]) p h' with ⟨l1, l2, hl, hs⟩
      refine ⟨r :: l1, l2, by rw [hl]; rfl, ?_⟩
      rw [hs]
      congr 1
      simp

/-! Facts about parse_filename and the date-layout loop. -/

theorem parse_filename_fst (fn : String) : (parse_filename fn).1 = findFundName fn := by
  rw [parse_filename]
  cases searchDate fn.data <;> rfl

theorem parse_filename_snd_of_tok (fn : String) (tok : List Char)
    (h : searchDate fn.data = some tok) :
    (parse_filename fn).2 = (tryDateFormats (normalizeTok tok)).map formatDate := by
  rw [parse_filename, h]

theorem parse_filename_snd_of_none (fn : String) (h : searchDate fn.data = none) :
    (parse_filename fn).2 = none := by
  rw [parse_filename, h]

theorem accepted_eq_some (o : Option Date) (d : Date) :
    accepted o = some d ↔ o = some d ∧ 28 ≤ d.day := by
  cases o with
  | none => simp [accepted]
  | some d0 =>
    by_cases h : 28 ≤ d0.day
    · simp only [accepted, if_pos h, Option.some.injEq]
      constructor
      · rintro rfl; exact ⟨rfl, h⟩
      · rintro ⟨h1, _⟩; exact h1
    · simp only [accepted, if_neg h]
      constructor
      · intro h0; cases h0
      · rintro ⟨h1, hd⟩
        injection h1 with h1
        exact absurd (h1 ▸ hd) h

theorem candAccepts_true (i : Nat) (t : List Char) (h : candAccepts i t = true) :
    ∃ d, candParse i t = some d ∧ 28 ≤ d.day := by
  unfold candAccepts at h
  cases ho : accepted (candParse i t) with
  | none => rw [ho] at h; simp at h
  | some d => exact ⟨d, ((accepted_eq_some _ _).mp ho).1, ((accepted_eq_some _ _).mp ho).2⟩

theorem tryDateFormats_eq_none_iff (t : List Char) :
    tryDateFormats t = none ↔
      candAccepts 0 t = false ∧ candAccepts 1 t = false ∧
      candAccepts 2 t = false ∧ candAccepts 3 t = false := by
  unfold tryDateFormats candAccepts
  cases h0 : accepted (candParse 0 t) <;> cases h1 : accepted (candParse 1 t) <;>
    cases h2 : accepted (candParse 2 t) <;> cases h3 : accepted (candParse 3 t) <;>
      simp [h0, h1, h2, h3]

theorem tryDateFormats_first_accept (t : List Char) (d : Date)
    (h : tryDateFormats t = some d) :
    28 ≤ d.day ∧ ∃ i, i < 4 ∧ candParse i t = some d ∧ candAccepts i t = true ∧
      ∀ j, j < i → candAccepts j t = false := by
  unfold tryDateFormats at h
  cases h0 : accepted (candParse 0 t) with
  | some d0 =>
    simp only [h0] at h
    injection h with h
    subst h
    obtain ⟨hp, hd⟩ := (accepted_eq_some _ _).mp h0
    exact ⟨hd, 0, by omega, hp, by simp [candAccepts, h0], fun j hj => by omega⟩
  | none =>
    simp only [h0] at h
    cases h1 : accepted (candParse 1 t) with
    | some d1 =>
      simp only [h1] at h
      injection h with h
      subst h
      obtain ⟨hp, hd⟩ := (accepted_eq_some _ _).mp h1
      refine ⟨hd, 1, by omega, hp, by simp [candAccepts, h1], ?_⟩
      intro j hj
      have : j = 0 := by omega
      subst this
      simp [candAccepts, h0]
    | none =>
      simp only [h1] at h
      cases h2 : accepted (candParse 2 t) with
      | some d2 =>
        simp only [h2] at h
        injection h with h
        subst h
        obtain ⟨hp, hd⟩ := (accepted_eq_some _ _).mp h2
        refine ⟨hd, 2, by omega, hp, by simp [candAccepts, h2], ?_⟩
        intro j hj
        interval_cases j
        · simp [candAccepts, h0]
        · simp [candAccepts, h1]
      | none =>
        simp only [h2] at h
        obtain ⟨hp, hd⟩ := (accepted_eq_some _ _).mp h
        refine ⟨hd, 3, by omega, hp, by simp [candAccepts, h], ?_⟩
        intro j hj
        interval_cases j
        · simp [candAccepts, h0]
        · simp [candAccepts, h1]
        · simp [candAccepts, h2]

/-! Mutual exclusivity of the four layouts. -/

theorem all_digits_splitHy : ∀ s : List Char, s.all Char.isDigit = true → splitHy s = [s]
  | [], _ => rfl
  | c :: rest, h => by
    simp only [List.all_cons, Bool.and_eq_true] at h
    have hc : ¬ (c = '-') := fun hc => absurd (hc ▸ h.1) (by decide)
    simp [splitHy, hc, all_digits_splitHy rest h.2]

theorem groups3_none_of_all_digits (s : List Char) (h : s.all Char.isDigit = true) :
    groups3 s = none := by
  rw [groups3, all_digits_splitHy s h]

theorem strptimeCompact_all_digits (s : List Char) (d : Date)
    (h : strptimeCompact s = some d) : s.all Char.isDigit = true := by
  unfold strptimeCompact at h
  by_cases ha : s.all Char.isDigit = true
  · exact ha
  · rw [if_neg ha] at h; cases h

theorem mkDate_fields (y m d0 : Nat) (d : Date) (h : mkDate y m d0 = some d) :
    d.year = y ∧ d.month = m ∧ d.day = d0 ∧ 1 ≤ m ∧ m ≤ 12 ∧ 1 ≤ d0 := by
  unfold mkDate at h
  by_cases hv : validDate y m d0 = true
  · rw [if_pos hv] at h
    injection h with h
    subst h
    unfold validDate at hv
    simp only [Bool.and_eq_true, decide_eq_true_eq] at hv
    obtain ⟨⟨⟨⟨⟨-, -⟩, hm1⟩, hm2⟩, hd1⟩, -⟩ := hv
    exact ⟨rfl, rfl, rfl, hm1, hm2, hd1⟩
  · rw [if_neg hv] at h; cases h

theorem strptimeDMY_shape (s : List Char) (d : Date) (h : strptimeDMY s = some d) :
    ∃ a b c, groups3 s = some (a, b, c) ∧ a.length ≤ 2 ∧ c.length = 4 ∧
      d.day = natOfDigits a ∧ natOfDigits b ≤ 12 := by
  unfold strptimeDMY at h
  split at h
  next a b c hg =>
    split at h
    next hd =>
      simp only [Bool.and_eq_true] at hd
      obtain ⟨⟨h1, -⟩, h3⟩ := hd
      unfold digitGroup at h1 h3
      simp only [Bool.and_eq_true, decide_eq_true_eq] at h1 h3
      obtain ⟨-, -, hday, -, hm2, -⟩ := mkDate_fields _ _ _ _ h
      exact ⟨a, b, c, hg, h1.2, by omega, hday, hm2⟩
    next => cases h
  next => cases h

theorem strptimeMDY_shape (s : List Char) (d : Date) (h : strptimeMDY s = some d) :
    ∃ a b c, groups3 s = some (a, b, c) ∧ a.length ≤ 2 ∧ c.length = 4 ∧
      d.day = natOfDigits b ∧ natOfDigits a ≤ 12 := by
  unfold strptimeMDY at h
  split at h
  next a b c hg =>
    split at h
    next hd =>
      simp only [Bool.and_eq_true] at hd
      obtain ⟨⟨h1, -⟩, h3⟩ := hd
      unfold digitGroup at h1 h3
      simp only [Bool.and_eq_true, decide_eq_true_eq] at h1 h3
      obtain ⟨-, -, hday, -, hm2, -⟩ := mkDate_fields _ _ _ _ h
      exact ⟨a, b, c, hg, h1.2, by omega, hday, hm2⟩
    next => cases h
  next => cases h

theorem strptimeYMD_shape (s : List Char) (d : Date) (h : strptimeYMD s = some d) :
    ∃ a b c, groups3 s = some (a, b, c) ∧ a.length = 4 ∧ c.length ≤ 2 ∧
      d.day = natOfDigits c := by
  unfold strptimeYMD at h
  split at h
  next a b c hg =>
    split at h
    next hd =>
      simp only [Bool.and_eq_true] at hd
      obtain ⟨⟨h1, -⟩, h3⟩ := hd
      unfold digitGroup at h1 h3
      simp only [Bool.and_eq_true, decide_eq_true_eq] at h1 h3
      obtain ⟨-, -, hday, -, -, -⟩ := mkDate_fields _ _ _ _ h
      exact ⟨a, b, c, hg, by omega, h3.2, hday⟩
    next => cases h
  next => cases h

/-- No token is accepted, with day-of-month at least 28, by two different
layouts: the two- or four-digit position of the year group separates the
separated layouts, a day of 28 or more cannot be a month, and the compact
layout requires an undelimited all-digit token. -/
theorem candAccepts_unique (t : List Char) :
    ∀ i, i < 4 → ∀ j, j < 4 → candAccepts i t = true → candAccepts j t = true → i = j := by
  have h01 : ¬ (candAccepts 0 t = true ∧ candAccepts 1 t = true) := by
    rintro ⟨h0, h1⟩
    obtain ⟨d0, hp0, hd0⟩ := candAccepts_true 0 t h0
    obtain ⟨d1, hp1, -⟩ := candAccepts_true 1 t h1
    obtain ⟨a, b, c, hg, -, -, hday, -⟩ := strptimeDMY_shape t d0 hp0
    obtain ⟨a', b', c', hg', -, -, -, hm⟩ := strptimeMDY_shape t d1 hp1
    rw [hg] at hg'
    injection hg' with hg'
    simp only [Prod.mk.injEq] at hg'
    obtain ⟨rfl, -, -⟩ := hg'
    omega
  have h02 : ¬ (candAccepts 0 t = true ∧ candAccepts 2 t = true) := by
    rintro ⟨h0, h2⟩
    obtain ⟨d0, hp0, -⟩ := candAccepts_true 0 t h0
    obtain ⟨d2, hp2, -⟩ := candAccepts_true 2 t h2
    obtain ⟨a, b, c, hg, hlen, -, -, -⟩ := strptimeDMY_shape t d0 hp0
    obtain ⟨a', b', c', hg', hlen', -, -⟩ := strptimeYMD_shape t d2 hp2
    rw [hg] at hg'
    injection hg' with hg'
    simp only [Prod.mk.injEq] at hg'
    obtain ⟨rfl, -, -⟩ := hg'
    omega
  have h12 : ¬ (candAccepts 1 t = true ∧ candAccepts 2 t = true) := by
    rintro ⟨h1, h2⟩
    obtain ⟨d1, hp1, -⟩ := candAccepts_true 1 t h1
    obtain ⟨d2, hp2, -⟩ := candAccepts_true 2 t h2
    obtain ⟨a, b, c, hg, hlen, -, -, -⟩ := strptimeMDY_shape t d1 hp1
    obtain ⟨a', b', c', hg', hlen', -, -⟩ := strptimeYMD_shape t d2 hp2
    rw [hg] at hg'
    injection hg' with hg'
    simp only [Prod.mk.injEq] at hg'
    obtain ⟨rfl, -, -⟩ := hg'
    omega
  have hsep3 : ∀ i, i < 3 → ¬ (candAccepts i t = true ∧ candAccepts 3 t = true) := by
    rintro i hi ⟨hiacc, h3⟩
    obtain ⟨d3, hp3, -⟩ := candAccepts_true 3 t h3
    have hall := strptimeCompact_all_digits t d3 hp3
    have hnone := groups3_none_of_all_digits t hall
    obtain ⟨di, hpi, -⟩ := candAccepts_true i t hiacc
    interval_cases i
    · obtain ⟨a, b, c, hg, -⟩ := strptimeDMY_shape t di hpi
      rw [hnone] at hg; cases hg
    · obtain ⟨a, b, c, hg, -⟩ := strptimeMDY_shape t di hpi
      rw [hnone] at hg; cases hg
    · obtain ⟨a, b, c, hg, -⟩ := strptimeYMD_shape t di hpi
      rw [hnone] at hg; cases hg
  intro i hi j hj hai haj
  interval_cases i <;> interval_cases j
  · rfl
  · exact absurd ⟨hai, haj⟩ h01
  · exact absurd ⟨hai, haj⟩ h02
  · exact absurd ⟨hai, haj⟩ (hsep3 0 (by omega))
  · exact absurd ⟨haj, hai⟩ h01
  · rfl
  · exact absurd ⟨hai, haj⟩ h12
  · exact absurd ⟨hai, haj⟩ (hsep3 1 (by omega))
  · exact absurd ⟨haj, hai⟩ h02
  · exact absurd ⟨haj, hai⟩ h12
  · rfl
  · exact absurd ⟨hai, haj⟩ (hsep3 2 (by omega))
  · exact absurd ⟨haj, hai⟩ (hsep3 0 (by omega))
  · exact absurd ⟨haj, hai⟩ (hsep3 1 (by omega))
  · exact absurd ⟨haj, hai⟩ (hsep3 2 (by omega))
  · rfl

/-! Claim theorems about filename parsing. -/

/-- C1: when the date-token search finds a token in the file name, the
parser tries the four candidate layouts in order and returns a date if
and only if some layout parses the normalized token with day-of-month at
least 28 (so when every successful parse has day below 28 it returns no
date); the returned date is that of the first accepting layout; and at
most one of the four layouts accepts the token, so the accepting layout
is exactly one. -/
theorem parse_filename_layout_order (fn : String) (tok : List Char)
    (h : searchDate fn.data = some tok) :
    ((parse_filename fn).2.isSome = true ↔
      ∃ i, i < 4 ∧ candAccepts i (normalizeTok tok) = true)
    ∧ (∀ d, tryDateFormats (normalizeTok tok) = some d →
        (parse_filename fn).2 = some (formatDate d) ∧ 28 ≤ d.day ∧
        ∃ i, i < 4 ∧ candParse i (normalizeTok tok) = some d ∧
          ∀ j, j < i → candAccepts j (normalizeTok tok) = false)
    ∧ (∀ i, i < 4 → ∀ j, j < 4 → candAccepts i (normalizeTok tok) = true →
        candAccepts j (normalizeTok tok) = true → i = j) := by
  have hsnd := parse_filename_snd_of_tok fn tok h
  refine ⟨?_, ?_, candAccepts_unique _⟩
  · rw [hsnd]
    constructor
    · intro hs
      cases htf : tryDateFormats (normalizeTok tok) with
      | none => rw [htf] at hs; simp at hs
      | some d =>
        obtain ⟨-, i, hi, -, hacc, -⟩ := tryDateFormats_first_accept _ d htf
        exact ⟨i, hi, hacc⟩
    · rintro ⟨i, hi, hacc⟩
      cases htf : tryDateFormats (normalizeTok tok) with
      | some d => simp [htf]
      | none =>
        obtain ⟨h0, h1, h2, h3⟩ := (tryDateFormats_eq_none_iff _).mp htf
        interval_cases i <;> simp_all
  · intro d hd
    obtain ⟨hday, i, hi, hp, hacc, hfirst⟩ := tryDateFormats_first_accept _ d hd
    exact ⟨by rw [hsnd, hd]; rfl, hday, i, hi, hp, hfirst⟩

/-- Witness for C1 at the file name of the repository's own test:
Belaware_31_08_2022.csv, whose token 31_08_2022 is accepted by the
day-month-year layout. -/
theorem parse_filename_layout_order_witness :
    (((parse_filename "Belaware_31_08_2022.csv").2.isSome = true ↔
      ∃ i, i < 4 ∧ candAccepts i (normalizeTok ("31_08_2022".data)) = true)
    ∧ (∀ d, tryDateFormats (normalizeTok ("31_08_2022".data)) = some d →
        (parse_filename "Belaware_31_08_2022.csv").2 = some (formatDate d) ∧ 28 ≤ d.day ∧
        ∃ i, i < 4 ∧ candParse i (normalizeTok ("31_08_2022".data)) = some d ∧
          ∀ j, j < i → candAccepts j (normalizeTok ("31_08_2022".data)) = false)
    ∧ (∀ i, i < 4 → ∀ j, j < 4 → candAccepts i (normalizeTok ("31_08_2022".data)) = true →
        candAccepts j (normalizeTok ("31_08_2022".data)) = true → i = j))
    ∧ (parse_filename "Belaware_31_08_2022.csv").2 = some "8/31/2022" :=
  ⟨parse_filename_layout_order "Belaware_31_08_2022.csv" ("31_08_2022".data) (by decide),
   by decide⟩

/-- C8 (amended to InvestmentFunds.parse_filename, the class
implementation): it is total and non-fatal; with no roster match the fund
name is none, and with no date token the report date is none. The
module-level duplicate in orig_file.py does not satisfy the claim, see
the counterexample. -/
theorem parse_filename_total_nonfatal (fn : String) :
    ((∀ n, n ∈ fund_names → nameMatches n fn = false) → (parse_filename fn).1 = none)
    ∧ (searchDate fn.data = none → (parse_filename fn).2 = none) := by
  constructor
  · intro h
    rw [parse_filename_fst, findFundName]
    exact List.find?_eq_none.mpr (fun x hx => by simp [h x hx])
  · exact parse_filename_snd_of_none fn

/-- Witness for C8 at a file name with no roster fund and no date token. -/
theorem parse_filename_total_nonfatal_witness :
    (parse_filename "data.txt").1 = none ∧ (parse_filename "data.txt").2 = none :=
  ⟨(parse_filename_total_nonfatal "data.txt").1 (by decide),
   (parse_filename_total_nonfatal "data.txt").2 (by decide)⟩

/-- C8 counterexample: orig_file.py's parse_filename raises
AttributeError on a file name with no date token (match.group(0) is
called on None before the fund name is ever returned), where the claim
requires the non-fatal result that the class implementation produces. -/
theorem parse_filename_orig_raises :
    parse_filename_orig "Whitestone.csv" = .error "AttributeError"
    ∧ parse_filename "Whitestone.csv" = (some "Whitestone", none) := by
  constructor <;> rfl

/-- C9: for every file name containing a roster fund name
case-insensitively, parse_filename returns an exact roster entry that
matches, and it is the first matching entry of the roster. -/
theorem fund_name_first_roster_match (fn n : String)
    (hn : n ∈ fund_names) (hm : nameMatches n fn = true) :
    ∃ m, (parse_filename fn).1 = some m ∧ m ∈ fund_names ∧ nameMatches m fn = true ∧
      ∀ l1 l2, fund_names = l1 ++ m :: l2 → ∀ x ∈ l1, nameMatches x fn = false := by
  have hne : findFundName fn ≠ none := by
    rw [findFundName]
    intro h0
    exact List.find?_eq_none.mp h0 n hn hm
  obtain ⟨m, hm'⟩ := Option.ne_none_iff_exists'.mp hne
  rw [findFundName] at hm'
  have hmem : m ∈ fund_names := List.mem_of_find?_eq_some hm'
  have hmatch := List.find?_some hm'
  refine ⟨m, ?_, hmem, hmatch, ?_⟩
  · rw [parse_filename_fst, findFundName]; exact hm'
  · intro l1 l2 hdec x hx
    exact find?_first _ fund_names (by decide) m hm' l1 l2 hdec x hx

/-- Witness for C9 at the spec's example file name, which yields the
roster entry Whitestone. -/
theorem fund_name_first_roster_match_witness :
    (∃ m, (parse_filename "2022-12-31_Whitestone_Position.csv").1 = some m ∧
      m ∈ fund_names ∧ nameMatches m "2022-12-31_Whitestone_Position.csv" = true ∧
      ∀ l1 l2, fund_names = l1 ++ m :: l2 →
        ∀ x ∈ l1, nameMatches x "2022-12-31_Whitestone_Position.csv" = false)
    ∧ (parse_filename "2022-12-31_Whitestone_Position.csv").1 = some "Whitestone" :=
  ⟨fund_name_first_roster_match "2022-12-31_Whitestone_Position.csv" "Whitestone"
    (by decide) (by decide), by decide⟩

/-! Claim theorems about validation and ingestion. -/

theorem findCol_isSome : ∀ (df : DataFrame) (c : String), c ∈ df.map Prod.fst →
    ∃ col, findCol df c = some col
  | [], c, h => by simp at h
  | (n, col) :: rest, c, h => by
    by_cases hc : n = c
    · exact ⟨col, by simp [findCol, hc]⟩
    · rcases List.mem_cons.mp h with h' | h'
      · exact absurd h'.symm hc
      · obtain ⟨col', hcol'⟩ := findCol_isSome rest c h'
        exact ⟨col', by simp [findCol, hc, hcol']⟩

theorem updateCol_names (df : DataFrame) (c : String) (col : Column) :
    (updateCol df c col).map Prod.fst = df.map Prod.fst := by
  unfold updateCol
  rw [List.map_map]
  apply List.map_congr_left
  intro p _
  by_cases hc : p.1 = c <;> simp [Function.comp, hc]

theorem validateNumeric_ok : ∀ (cols : List String) (df : DataFrame),
    (∀ c ∈ cols, c ∈ df.map Prod.fst) →
    ∃ df' ws, validateNumeric df cols = .ok (df', ws) ∧
      df'.map Prod.fst = df.map Prod.fst
  | [], df, _ => ⟨df, [], rfl, rfl⟩
  | c :: rest, df, h => by
    obtain ⟨col, hcol⟩ := findCol_isSome df c (h c (List.mem_cons_self c rest))
    by_cases hdt : col.numericDtype = true
    · obtain ⟨df', ws, hval, hn⟩ :=
        validateNumeric_ok rest df (fun c' hc' => h c' (List.mem_cons_of_mem c hc'))
      exact ⟨df', ws, by simp [validateNumeric, hcol, hdt, hval], hn⟩
    · have hnames := updateCol_names df c ⟨true, col.cells.map coerceCell⟩
      obtain ⟨df', ws, hval, hn⟩ :=
        validateNumeric_ok rest (updateCol df c ⟨true, col.cells.map coerceCell⟩)
          (fun c' hc' => hnames ▸ h c' (List.mem_cons_of_mem c hc'))
      refine ⟨df', Warning.notNumeric c :: ws, ?_, hn.trans hnames⟩
      simp [validateNumeric, hcol, hdt, hval]

/-- C2 (amended): on every table that contains the four numeric columns,
validate_dataframe returns without raising, always with the success value
True, and a table additionally missing required columns yields a
non-empty warning list; but a table missing one of the numeric columns
makes the dtype loop raise KeyError, see the counterexample. -/
theorem validate_dataframe_warns (df : DataFrame) (fund_name : Option String)
    (filename : String) (h : ∀ c ∈ numeric_cols, c ∈ df.map Prod.fst) :
    ∃ ws df', validate_dataframe df fund_name filename = .ok (true, ws, df')
      ∧ ((∃ c ∈ fund_cols, c ∉ df.map Prod.fst) → ws ≠ []) := by
  obtain ⟨df', ws, hval, hnames⟩ := validateNumeric_ok numeric_cols df h
  have hp : "PRICE" ∈ df'.map Prod.fst := by
    rw [hnames]
    exact h "PRICE" (by decide)
  obtain ⟨pcol, hpcol⟩ := findCol_isSome df' "PRICE" hp
  have hres : validate_dataframe df fund_name filename =
      .ok (true,
        (if (fund_cols.filter (fun c => decide (c ∉ df.map Prod.fst))).isEmpty then []
         else [Warning.missingCols (fund_cols.filter (fun c => decide (c ∉ df.map Prod.fst)))])
        ++ ws ++ (if pcol.cells.contains Cell.null then [Warning.nullPrices] else []), df') := by
    simp only [validate_dataframe, hval, hpcol]
  refine ⟨_, df', hres, ?_⟩
  rintro ⟨c, hc, hcn⟩
  have hmiss : c ∈ fund_cols.filter (fun c => decide (c ∉ df.map Prod.fst)) :=
    List.mem_filter.mpr ⟨hc, decide_eq_true hcn⟩
  have hne := List.ne_nil_of_mem hmiss
  intro habs
  rw [if_neg (by simpa [List.isEmpty_iff] using hne)] at habs
  exact List.cons_ne_nil _ _ habs

/-- A seven-column table missing only SYMBOL: validation succeeds and
warns. -/
def dfNoSymbol : DataFrame :=
  [("FINANCIAL TYPE", ⟨false, [Cell.str none]⟩),
   ("SECURITY NAME", ⟨false, [Cell.str none]⟩),
   ("ISIN", ⟨false, [Cell.str none]⟩),
   ("PRICE", ⟨true, [Cell.num 1]⟩),
   ("QUANTITY", ⟨true, [Cell.num 2]⟩),
   ("REALISED P/L", ⟨true, [Cell.num 0]⟩),
   ("MARKET VALUE", ⟨true, [Cell.num 2]⟩)]

/-- Witness for C2 on a table missing only the SYMBOL column. -/
theorem validate_dataframe_warns_witness :
    ∃ ws df', validate_dataframe dfNoSymbol (some "Gohen") "Gohen_2022-08-31.csv"
        = .ok (true, ws, df')
      ∧ ((∃ c ∈ fund_cols, c ∉ dfNoSymbol.map Prod.fst) → ws ≠ []) :=
  validate_dataframe_warns dfNoSymbol (some "Gohen") "Gohen_2022-08-31.csv" (by decide)

/-- A seven-column table missing the required PRICE column. -/
def dfNoPrice : DataFrame :=
  [("FINANCIAL TYPE", ⟨false, [Cell.str none]⟩),
   ("SYMBOL", ⟨false, [Cell.str none]⟩),
   ("SECURITY NAME", ⟨false, [Cell.str none]⟩),
   ("ISIN", ⟨false, [Cell.str none]⟩),
   ("QUANTITY", ⟨true, [Cell.num 2]⟩),
   ("REALISED P/L", ⟨true, [Cell.num 0]⟩),
   ("MARKET VALUE", ⟨true, [Cell.num 2]⟩)]

/-- C2 counterexample: a table missing the required PRICE column makes
validate_dataframe raise KeyError in the dtype loop (the missing-column
check only warns, but df[col] then fails), so validation does not return
and that file's ingestion is aborted: the per-file handler skips it and
the store stays empty. -/
theorem validate_dataframe_keyerror :
    validate_dataframe dfNoPrice (some "Gohen") "Gohen_2022-08-31.csv"
        = .error "KeyError: PRICE"
    ∧ (ingest_csv [⟨"Gohen_2022-08-31.csv", some dfNoPrice⟩]).1 = [] := by
  constructor <;> rfl

theorem ingest_csv_foldl :
    ∀ (files : List SnapshotFile) (rs : List Row) (ls : List String),
      files.foldl (fun acc f =>
        match processFile f with
        | .ok rows => (acc.1 ++ rows, acc.2)
        | .error e => (acc.1, acc.2 ++ [e])) (rs, ls)
      = (rs ++ (files.map (fun f => ((processFile f).toOption).getD [])).flatten,
         ls ++ files.filterMap (fun f =>
           match processFile f with
           | .ok _ => none
           | .error e => some e))
  | [], rs, ls => by simp
  | f :: rest, rs, ls => by
    cases hf : processFile f with
    | ok rows =>
      simp only [List.foldl_cons, hf, List.map_cons, List.flatten_cons, List.filterMap_cons,
        Except.toOption, Option.getD_some]
      rw [ingest_csv_foldl rest (rs ++ rows) ls]
      simp only [List.append_assoc]
      rfl
    | error e =>
      simp only [List.foldl_cons, hf, List.map_cons, List.flatten_cons, List.filterMap_cons,
        Except.toOption, Option.getD_none]
      rw [ingest_csv_foldl rest rs (ls ++ [e])]
      simp only [List.append_assoc]
      rfl

/-- C3 (amended to InvestmentFunds.ingest_csv, the class implementation):
every exception while processing one file is caught and logged and the
file skipped, so the store receives exactly the successfully processed
files' rows in order — for a directory of one corrupt and N valid files,
exactly the N valid files' rows — and each failure appears in the log.
The module-level duplicate in orig_file.py does not satisfy the claim,
see the counterexample. -/
theorem ingest_csv_isolates_failures (files : List SnapshotFile) :
    (ingest_csv files).1 = (files.map (fun f => ((processFile f).toOption).getD [])).flatten
    ∧ (ingest_csv files).2 = files.filterMap (fun f =>
        match processFile f with
        | .ok _ => none
        | .error e => some e) := by
  rw [ingest_csv, ingest_csv_foldl files [] []]
  exact ⟨by simp, by simp⟩

/-- A corrupt snapshot file: pd.read_csv raises on it. -/
def corruptFile : SnapshotFile := ⟨"Magnum_2022-08-31.csv", none⟩

/-- A well-formed one-row snapshot table with all eight required columns. -/
def goodDF : DataFrame :=
  [("FINANCIAL TYPE", ⟨false, [Cell.str none]⟩),
   ("SYMBOL", ⟨false, [Cell.str none]⟩),
   ("SECURITY NAME", ⟨false, [Cell.str none]⟩),
   ("ISIN", ⟨false, [Cell.str none]⟩),
   ("PRICE", ⟨true, [Cell.num 1]⟩),
   ("QUANTITY", ⟨true, [Cell.num 2]⟩),
   ("REALISED P/L", ⟨true, [Cell.num 0]⟩),
   ("MARKET VALUE", ⟨true, [Cell.num 2]⟩)]

def validFile : SnapshotFile := ⟨"Whitestone_2022-08-31.csv", some goodDF⟩

/-- C3 counterexample: orig_file.py's ingest_csv has no try/except around
the loop body, so with a corrupt file listed first the run aborts and the
subsequent valid file is never ingested (zero rows, one abort), although
that same valid file processes fine — the class implementation ingests
exactly its rows. -/
theorem ingest_csv_orig_aborts :
    (ingest_csv_orig [corruptFile, validFile]).1 = []
    ∧ (ingest_csv_orig [corruptFile, validFile]).2.isSome = true
    ∧ processFile validFile = .ok (rowsOf goodDF (some "Whitestone") (some "8/31/2022"))
    ∧ (ingest_csv [corruptFile, validFile]).1
        = rowsOf goodDF (some "Whitestone") (some "8/31/2022") := by
  refine ⟨rfl, rfl, rfl, rfl⟩

/-! Claim theorem about the reconciliation report. -/

theorem dtLe_total (a b : Obs) :
    decide (a.dt ≤ b.dt) = true ∨ decide (b.dt ≤ a.dt) = true := by
  rcases Int.le_total a.dt b.dt with h | h
  · exact Or.inl (decide_eq_true h)
  · exact Or.inr (decide_eq_true h)

theorem dtLe_trans (a b c : Obs) (h1 : decide (a.dt ≤ b.dt) = true)
    (h2 : decide (b.dt ≤ c.dt) = true) : decide (a.dt ≤ c.dt) = true :=
  decide_eq_true (le_trans (of_decide_eq_true h1) (of_decide_eq_true h2))

/-- C4: every reconciliation row's matched master price is the price of
an eligible observation (same identifier, symbol if present else ISIN,
with timestamp not after the holding's) whose timestamp is maximal among
the eligible ones; with no eligible observation the match is null, not an
error; and the price difference is the holding price minus the matched
price, null whenever either side is null. -/
theorem recon_backward_match (bonds equities : List Obs) (holdings : List Holding)
    (r : ReconRow) (hr : r ∈ generate_reconciliation_report bonds equities holdings) :
    ((∃ o, o ∈ bonds ++ equities ∧ obsMatches o r.holding = true ∧
        r.masterPrice = o.masterPrice ∧
        ∀ p, p ∈ bonds ++ equities → obsMatches p r.holding = true → p.dt ≤ o.dt)
     ∨ (r.masterPrice = none ∧ ∀ o, o ∈ bonds ++ equities → obsMatches o r.holding = false))
    ∧ r.priceDiff = subOpt r.holding.price r.masterPrice := by
  unfold generate_reconciliation_report at hr
  obtain ⟨h, hh, rfl⟩ := List.mem_map.mp hr
  have hperm := sortLe_perm (fun a b : Obs => decide (a.dt ≤ b.dt)) (bonds ++ equities)
  have hsorted := sortLe_pairwise (fun a b : Obs => decide (a.dt ≤ b.dt))
    dtLe_total dtLe_trans (bonds ++ equities)
  refine ⟨?_, rfl⟩
  cases hlast : lastOf ((sortLe (fun a b : Obs => decide (a.dt ≤ b.dt)) (bonds ++ equities)).filter
      (fun o => obsMatches o h)) with
  | none =>
    right
    constructor
    · show (matchObs _ h).bind Obs.masterPrice = none
      rw [matchObs, hlast]
      rfl
    · intro o ho
      have hfil := (lastOf_eq_none _).mp hlast
      have := List.filter_eq_nil_iff.mp hfil o (hperm.mem_iff.mpr ho)
      simpa using this
  | some o =>
    left
    have homem := lastOf_mem _ o hlast
    have ho1 : o ∈ bonds ++ equities := hperm.mem_iff.mp (List.mem_of_mem_filter homem)
    have ho2 : obsMatches o h = true := (List.mem_filter.mp homem).2
    refine ⟨o, ho1, ho2, ?_, ?_⟩
    · show (matchObs _ h).bind Obs.masterPrice = o.masterPrice
      rw [matchObs, hlast]
      rfl
    · intro p hp hpm
      have hpfil : p ∈ (sortLe (fun a b : Obs => decide (a.dt ≤ b.dt))
          (bonds ++ equities)).filter (fun o => obsMatches o h) :=
        List.mem_filter.mpr ⟨hperm.mem_iff.mpr hp, hpm⟩
      rcases lastOf_ge _ _ (hsorted.filter _) p o hpfil hlast with rfl | hle
      · exact le_refl _
      · exact of_decide_eq_true hle

def bondsEx : List Obs :=
  [⟨"IS0001", some 10, 0⟩, ⟨"IS0001", some 12, 5⟩, ⟨"IS0001", some 99, 9⟩]

def holdingEx : Holding := ⟨none, some "IS0001", some 13, 7⟩

def reconRowEx : ReconRow := ⟨holdingEx, some 12, some 1⟩

/-- Witness for C4: one bond stream, one holding keyed by ISIN at time 7;
the match is the time-5 observation (price 12), not the time-9 one, and
the difference is 1. -/
theorem recon_backward_match_witness :
    ((∃ o, o ∈ bondsEx ++ [] ∧ obsMatches o reconRowEx.holding = true ∧
        reconRowEx.masterPrice = o.masterPrice ∧
        ∀ p, p ∈ bondsEx ++ [] → obsMatches p reconRowEx.holding = true → p.dt ≤ o.dt)
     ∨ (reconRowEx.masterPrice = none ∧
        ∀ o, o ∈ bondsEx ++ [] → obsMatches o reconRowEx.holding = false))
    ∧ reconRowEx.priceDiff = subOpt reconRowEx.holding.price reconRowEx.masterPrice :=
  recon_backward_match bondsEx [] [holdingEx] reconRowEx (by with_unfolding_all decide)

/-! Order lemmas for the performance pipeline. -/

theorem monthlyLe_total (a b : Monthly) : monthlyLe a b = true ∨ monthlyLe b a = true := by
  unfold monthlyLe
  rcases lt_trichotomy a.fund b.fund with h | h | h
  · left; simp [h]
  · rcases Int.le_total a.dt b.dt with h2 | h2
    · left; simp [h, h2]
    · right; simp [h.symm, h2]
  · right; simp [h]

theorem monthlyLe_trans (a b c : Monthly) (h1 : monthlyLe a b = true)
    (h2 : monthlyLe b c = true) : monthlyLe a c = true := by
  unfold monthlyLe at h1 h2 ⊢
  simp only [Bool.or_eq_true, Bool.and_eq_true, decide_eq_true_eq] at h1 h2 ⊢
  rcases h1 with h1 | ⟨h1e, h1d⟩ <;> rcases h2 with h2 | ⟨h2e, h2d⟩
  · exact Or.inl (lt_trans h1 h2)
  · exact Or.inl (lt_of_lt_of_eq h1 h2e)
  · exact Or.inl (lt_of_eq_of_lt h1e h2)
  · exact Or.inr ⟨h1e.trans h2e, le_trans h1d h2d⟩

theorem monthlyLe_same_fund (a b : Monthly) (h : monthlyLe a b = true)
    (hf : a.fund = b.fund) : a.dt ≤ b.dt := by
  unfold monthlyLe at h
  simp only [Bool.or_eq_true, Bool.and_eq_true, decide_eq_true_eq] at h
  rcases h with h | ⟨-, h⟩
  · exact absurd h (by rw [hf]; exact lt_irrefl _)
  · exact h

theorem fvalLe_refl (a : FVal) : fvalLe a a = true := by
  cases a <;> simp [fvalLe]

theorem fvalLe_total (a b : FVal) : fvalLe a b = true ∨ fvalLe b a = true := by
  cases a <;> cases b <;> simp [fvalLe]
  exact le_total _ _

theorem fvalLe_trans (a b c : FVal) (h1 : fvalLe a b = true) (h2 : fvalLe b c = true) :
    fvalLe a c = true := by
  cases a <;> cases b <;> cases c <;> simp_all [fvalLe]
  exact le_trans h1 h2

theorem bestLe_total (a b : PerfEntry) : bestLe a b = true ∨ bestLe b a = true := by
  unfold bestLe
  rcases lt_trichotomy a.dt b.dt with h | h | h
  · left; simp [h]
  · rcases fvalLe_total a.ror b.ror with h2 | h2
    · right; simp [h.symm, h2]
    · left; simp [h, h2]
  · right; simp [h]

theorem bestLe_trans (a b c : PerfEntry) (h1 : bestLe a b = true)
    (h2 : bestLe b c = true) : bestLe a c = true := by
  unfold bestLe at h1 h2 ⊢
  simp only [Bool.or_eq_true, Bool.and_eq_true, decide_eq_true_eq] at h1 h2 ⊢
  rcases h1 with h1 | ⟨h1e, h1f⟩ <;> rcases h2 with h2 | ⟨h2e, h2f⟩
  · exact Or.inl (lt_trans h1 h2)
  · exact Or.inl (lt_of_lt_of_eq h1 h2e)
  · exact Or.inl (lt_of_eq_of_lt h1e h2)
  · exact Or.inr ⟨h1e.trans h2e, fvalLe_trans _ _ _ h2f h1f⟩

/-- The monthly table has one row per distinct (fund, period) key. -/
theorem monthlyAgg_key_pairwise (rows : List PerfRow) :
    (monthlyAgg rows).Pairwise (fun a b => a.fund ≠ b.fund ∨ a.dt ≠ b.dt) := by
  unfold monthlyAgg groupKeys
  rw [List.pairwise_map]
  refine (List.nodup_dedup _).imp ?_
  intro k k' hkk
  by_cases h1 : k.1 = k'.1
  · exact Or.inr (fun h2 => hkk (Prod.ext h1 h2))
  · exact Or.inl h1

theorem sortedMonthly_pairwise (rows : List PerfRow) :
    (sortedMonthly rows).Pairwise (fun a b => monthlyLe a b = true) :=
  sortLe_pairwise monthlyLe monthlyLe_total monthlyLe_trans _

theorem sortedMonthly_perm (rows : List PerfRow) :
    (sortedMonthly rows).Perm (monthlyAgg rows) :=
  sortLe_perm monthlyLe _

theorem sortedMonthly_key_pairwise (rows : List PerfRow) :
    (sortedMonthly rows).Pairwise (fun a b => a.fund ≠ b.fund ∨ a.dt ≠ b.dt) := by
  refine ((sortedMonthly_perm rows).pairwise_iff ?_).mpr (monthlyAgg_key_pairwise rows)
  intro x y h
  rcases h with h | h
  · exact Or.inl (fun e => h e.symm)
  · exact Or.inr (fun e => h e.symm)

theorem perfEntries_mem (rows : List PerfRow) (e : PerfEntry) (he : e ∈ perfEntries rows) :
    ∃ m s l1 l2, sortedMonthly rows = l1 ++ m :: l2 ∧ s = prevMV l1 m.fund ∧
      e = entryOf (m, s) := by
  unfold perfEntries at he
  obtain ⟨⟨m, s⟩, hms, he'⟩ := List.mem_map.mp he
  obtain ⟨l1, l2, hl, hs⟩ := addStarting_mem _ [] _ hms
  exact ⟨m, s, l1, l2, hl, by simpa using hs, he'.symm⟩

/-- Report rows are a subset of the rows that survive dropna. -/
theorem mem_kept_of_mem_report (rows : List PerfRow) (x : PerfEntry)
    (h : x ∈ generate_performance_report rows) : x ∈ keptEntries rows := by
  unfold generate_performance_report at h
  exact (sortLe_perm bestLe _).mem_iff.mp (mem_of_mem_dedupByKey _ _ x h)

/-! Claim theorems about the performance report. -/

/-- C5: each performance-table row's starting market value is the
immediately preceding period's summed market value for the same fund (the
nearest strictly earlier period of that fund in the monthly aggregate);
rows of a fund's first observed period have no starting value and are
excluded by the dropna step; and whenever the starting value is a nonzero
s, the rate of return is exactly (ending market value - s + realised
P/L) / s. -/
theorem perf_starting_and_ror (rows : List PerfRow) (e : PerfEntry)
    (he : e ∈ perfEntries rows) :
    ((∃ prev, prev ∈ monthlyAgg rows ∧ prev.fund = e.fund ∧ prev.dt < e.dt ∧
        e.startingMV = some prev.mv ∧
        ∀ q, q ∈ monthlyAgg rows → q.fund = e.fund → q.dt < e.dt → q.dt ≤ prev.dt)
     ∨ (e.startingMV = none ∧ e ∉ keptEntries rows ∧
        ∀ q, q ∈ monthlyAgg rows → q.fund = e.fund → ¬ q.dt < e.dt))
    ∧ (∀ s, e.startingMV = some s → s ≠ 0 →
        e.ror = FVal.real ((e.mv - s + e.pl) / s)) := by
  obtain ⟨m, s, l1, l2, hl, hs, rfl⟩ := perfEntries_mem rows e he
  subst hs
  have hperm := sortedMonthly_perm rows
  have hsorted := sortedMonthly_pairwise rows
  have hkeys := sortedMonthly_key_pairwise rows
  rw [hl] at hsorted hkeys hperm
  obtain ⟨hs1, hs2, hcross⟩ := List.pairwise_append.mp hsorted
  obtain ⟨-, hk2, hkcross⟩ := List.pairwise_append.mp hkeys
  have hmem_iff : ∀ q : Monthly, q ∈ monthlyAgg rows ↔ q ∈ l1 ++ m :: l2 :=
    fun q => (hperm.mem_iff).symm
  constructor
  · cases hlast : lastOf (l1.filter (fun q => decide (q.fund = m.fund))) with
    | none =>
      right
      have hfil := (lastOf_eq_none _).mp hlast
      have hstart : prevMV l1 m.fund = none := by rw [prevMV, hlast]; rfl
      refine ⟨hstart, ?_, ?_⟩
      · intro hmem
        have hpred := (List.mem_filter.mp hmem).2
        rw [hstart] at hpred
        simp [entryOf, rorOf] at hpred
      · intro q hq hqf hqlt
        have hqf' : q.fund = m.fund := hqf
        have hqlt' : q.dt < m.dt := hqlt
        rcases List.mem_append.mp ((hmem_iff q).mp hq) with hq1 | hq2
        · have := List.filter_eq_nil_iff.mp hfil q hq1
          simp [hqf'] at this
        · rcases List.mem_cons.mp hq2 with rfl | hq2'
          · exact absurd hqlt' (lt_irrefl _)
          · have hle := monthlyLe_same_fund m q
              ((List.pairwise_cons.mp hs2).1 q hq2') hqf'.symm
            omega
    | some prev =>
      left
      have hstart : prevMV l1 m.fund = some prev.mv := by rw [prevMV, hlast]; rfl
      have hprevfil := lastOf_mem _ prev hlast
      have hprev1 : prev ∈ l1 := List.mem_of_mem_filter hprevfil
      have hprevf : prev.fund = m.fund :=
        of_decide_eq_true (List.mem_filter.mp hprevfil).2
      have hle : monthlyLe prev m = true := hcross prev hprev1 m (List.mem_cons_self m l2)
      have hdtle : prev.dt ≤ m.dt := monthlyLe_same_fund prev m hle hprevf
      have hne : prev.dt ≠ m.dt := by
        rcases hkcross prev hprev1 m (List.mem_cons_self m l2) with h | h
        · exact absurd hprevf h
        · exact h
      refine ⟨prev, (hmem_iff prev).mpr (List.mem_append.mpr (Or.inl hprev1)), hprevf,
        lt_of_le_of_ne hdtle hne, hstart, ?_⟩
      intro q hq hqf hqlt
      have hqf' : q.fund = m.fund := hqf
      have hqlt' : q.dt < m.dt := hqlt
      rcases List.mem_append.mp ((hmem_iff q).mp hq) with hq1 | hq2
      · have hqfil : q ∈ l1.filter (fun q => decide (q.fund = m.fund)) :=
          List.mem_filter.mpr ⟨hq1, decide_eq_true hqf'⟩
        rcases lastOf_ge monthlyLe _ (hs1.filter _) q prev hqfil hlast with rfl | h
        · exact le_refl _
        · exact monthlyLe_same_fund q prev h (hqf'.trans hprevf.symm)
      · rcases List.mem_cons.mp hq2 with rfl | hq2'
        · exact absurd hqlt' (lt_irrefl _)
        · have hle2 := monthlyLe_same_fund m q
            ((List.pairwise_cons.mp hs2).1 q hq2') hqf'.symm
          omega
  · intro s' hs' hnz
    show rorOf m.mv m.pl (prevMV l1 m.fund) = _
    rw [show prevMV l1 m.fund = some s' from hs']
    simp [rorOf, hnz, entryOf]

/-- The spec's worked example: one fund with ending market values
100, 110, 105 and realised P/L 0, 5, 2. -/
def perfRowsEx : List PerfRow :=
  [⟨some "F", some 0, some 100, some 0⟩,
   ⟨some "F", some 1, some 110, some 5⟩,
   ⟨some "F", some 2, some 105, some 2⟩]

def entryP2 : PerfEntry := ⟨"F", 1, 110, 5, some 100, FVal.real (3/20)⟩

def entryP1 : PerfEntry := ⟨"F", 0, 100, 0, none, FVal.nan⟩

/-- Witness for C5 at the spec's example: period 2's rate of return is
(110 - 100 + 5)/100 = 0.15 with starting value 100, and period 1 (no
starting value) is excluded. -/
theorem perf_starting_and_ror_witness :
    (((∃ prev, prev ∈ monthlyAgg perfRowsEx ∧ prev.fund = entryP2.fund ∧
        prev.dt < entryP2.dt ∧ entryP2.startingMV = some prev.mv ∧
        ∀ q, q ∈ monthlyAgg perfRowsEx → q.fund = entryP2.fund → q.dt < entryP2.dt →
          q.dt ≤ prev.dt)
     ∨ (entryP2.startingMV = none ∧ entryP2 ∉ keptEntries perfRowsEx ∧
        ∀ q, q ∈ monthlyAgg perfRowsEx → q.fund = entryP2.fund → ¬ q.dt < entryP2.dt))
    ∧ (∀ s, entryP2.startingMV = some s → s ≠ 0 →
        entryP2.ror = FVal.real ((entryP2.mv - s + entryP2.pl) / s)))
    ∧ (((∃ prev, prev ∈ monthlyAgg perfRowsEx ∧ prev.fund = entryP1.fund ∧
        prev.dt < entryP1.dt ∧ entryP1.startingMV = some prev.mv ∧
        ∀ q, q ∈ monthlyAgg perfRowsEx → q.fund = entryP1.fund → q.dt < entryP1.dt →
          q.dt ≤ prev.dt)
     ∨ (entryP1.startingMV = none ∧ entryP1 ∉ keptEntries perfRowsEx ∧
        ∀ q, q ∈ monthlyAgg perfRowsEx → q.fund = entryP1.fund → ¬ q.dt < entryP1.dt))
    ∧ (∀ s, entryP1.startingMV = some s → s ≠ 0 →
        entryP1.ror = FVal.real ((entryP1.mv - s + entryP1.pl) / s))) :=
  ⟨perf_starting_and_ror perfRowsEx entryP2 (by with_unfolding_all decide),
   perf_starting_and_ror perfRowsEx entryP1 (by with_unfolding_all decide)⟩

/-- C6 (amended): a period with undefined starting market value has NaN
rate of return and is excluded from dropna's output and from the report;
but a period with zero starting market value is only excluded when its
numerator (ending market value plus realised P/L) is zero — otherwise
float division by zero yields a signed infinity, which dropna keeps, so
the period stays eligible for ranking. -/
theorem perf_zero_or_undefined_start (rows : List PerfRow) (e : PerfEntry)
    (he : e ∈ perfEntries rows) :
    (e.startingMV = none → e.ror = FVal.nan ∧ e ∉ keptEntries rows ∧
      e ∉ generate_performance_report rows)
    ∧ (e.startingMV = some 0 →
        ((e.mv + e.pl = 0 → e.ror = FVal.nan ∧ e ∉ keptEntries rows)
         ∧ (0 < e.mv + e.pl → e.ror = FVal.posInf ∧ e ∈ keptEntries rows)
         ∧ (e.mv + e.pl < 0 → e.ror = FVal.negInf ∧ e ∈ keptEntries rows))) := by
  obtain ⟨m, s, l1, l2, -, hs, rfl⟩ := perfEntries_mem rows e he
  constructor
  · intro h0
    have hs0 : s = none := h0
    subst hs0
    have hror : (entryOf (m, none)).ror = FVal.nan := rfl
    have hkept : entryOf (m, (none : Option Rat)) ∉ keptEntries rows := by
      intro hmem
      have hpred := (List.mem_filter.mp hmem).2
      simp [entryOf, rorOf] at hpred
    exact ⟨hror, hkept, fun hmem => hkept (mem_kept_of_mem_report rows _ hmem)⟩
  · intro h0
    have hs0 : s = some 0 := h0
    subst hs0
    have hnum : m.mv - 0 + m.pl = m.mv + m.pl := by ring
    refine ⟨?_, ?_, ?_⟩
    · intro hz
      have hz' : m.mv + m.pl = 0 := hz
      have hror : (entryOf (m, some (0 : Rat))).ror = FVal.nan := by
        show rorOf m.mv m.pl (some 0) = FVal.nan
        rw [rorOf]
        rw [if_pos rfl, hnum, if_pos hz']
      refine ⟨hror, ?_⟩
      intro hmem
      have hpred := (List.mem_filter.mp hmem).2
      rw [show (entryOf (m, some (0 : Rat))).ror = FVal.nan from hror] at hpred
      simp at hpred
    · intro hpos
      have hpos' : 0 < m.mv + m.pl := hpos
      have hror : (entryOf (m, some (0 : Rat))).ror = FVal.posInf := by
        show rorOf m.mv m.pl (some 0) = FVal.posInf
        rw [rorOf]
        rw [if_pos rfl, hnum, if_neg (ne_of_gt hpos'), if_pos hpos']
      refine ⟨hror, List.mem_filter.mpr ⟨he, ?_⟩⟩
      rw [show ((entryOf (m, some (0 : Rat))).ror != FVal.nan)
            = (FVal.posInf != FVal.nan) from by rw [hror]]
      decide
    · intro hneg
      have hneg' : m.mv + m.pl < 0 := hneg
      have hror : (entryOf (m, some (0 : Rat))).ror = FVal.negInf := by
        show rorOf m.mv m.pl (some 0) = FVal.negInf
        rw [rorOf]
        rw [if_pos rfl, hnum, if_neg (ne_of_lt hneg'), if_neg (not_lt_of_gt hneg')]
      refine ⟨hror, List.mem_filter.mpr ⟨he, ?_⟩⟩
      rw [show ((entryOf (m, some (0 : Rat))).ror != FVal.nan)
            = (FVal.negInf != FVal.nan) from by rw [hror]]
      decide

def zeroStartRows : List PerfRow :=
  [⟨some "A", some 0, some 0, some 0⟩, ⟨some "A", some 1, some 5, some 0⟩]

/-- Witness for C6: in the zero-start example, the undefined-start first
period is NaN and excluded everywhere, while the zero-start second period
(numerator 5) keeps a +infinity rate of return and survives dropna. -/
theorem perf_zero_or_undefined_start_witness :
    ((⟨"A", 1, 5, 0, some 0, FVal.posInf⟩ : PerfEntry).ror = FVal.posInf
      ∧ (⟨"A", 1, 5, 0, some 0, FVal.posInf⟩ : PerfEntry) ∈ keptEntries zeroStartRows)
    ∧ ((⟨"A", 0, 0, 0, none, FVal.nan⟩ : PerfEntry).ror = FVal.nan
      ∧ (⟨"A", 0, 0, 0, none, FVal.nan⟩ : PerfEntry) ∉ keptEntries zeroStartRows
      ∧ (⟨"A", 0, 0, 0, none, FVal.nan⟩ : PerfEntry)
          ∉ generate_performance_report zeroStartRows) :=
  ⟨((perf_zero_or_undefined_start zeroStartRows ⟨"A", 1, 5, 0, some 0, FVal.posInf⟩
      (by with_unfolding_all decide)).2 (by decide)).2.1 (by with_unfolding_all decide),
   (perf_zero_or_undefined_start zeroStartRows ⟨"A", 0, 0, 0, none, FVal.nan⟩
      (by with_unfolding_all decide)).1 (by decide)⟩

/-- C6 counterexample: a fund whose first period sums to market value 0
gives the second period starting value 0 and rate of return +infinity
(float division of 5 by 0), which dropna does not remove: the period
appears in the final best-performing report, where the claim requires it
to be excluded. -/
theorem perf_zero_start_in_output :
    (⟨"A", 1, 5, 0, some 0, FVal.posInf⟩ : PerfEntry)
        ∈ generate_performance_report zeroStartRows
    ∧ FVal.posInf ≠ FVal.nan := by
  constructor
  · with_unfolding_all decide
  · decide

/-- C7: the report selects at most one fund per reporting period (all
output periods are distinct), and the selected row's rate of return is at
least that of every eligible (post-dropna) row of the same period. -/
theorem perf_best_unique_and_max (rows : List PerfRow) :
    (generate_performance_report rows).Pairwise (fun a b => a.dt ≠ b.dt)
    ∧ ∀ b, b ∈ generate_performance_report rows →
        ∀ q, q ∈ keptEntries rows → q.dt = b.dt → fvalLe q.ror b.ror = true := by
  constructor
  · exact dedupByKey_pairwise_ne _ _
  · intro b hb q hq hdt
    unfold generate_performance_report at hb
    have hsorted := sortLe_pairwise bestLe bestLe_total bestLe_trans (keptEntries rows)
    have hqs : q ∈ sortLe bestLe (keptEntries rows) :=
      (sortLe_perm bestLe _).mem_iff.mpr hq
    rcases dedupByKey_best (fun e => e.dt) (fun a b => bestLe a b = true) _ hsorted
        b hb q hqs hdt with rfl | hbq
    · exact fvalLe_refl _
    · unfold bestLe at hbq
      simp only [Bool.or_eq_true, Bool.and_eq_true, decide_eq_true_eq] at hbq
      rcases hbq with h | ⟨-, h⟩
      · exact absurd (hdt ▸ h) (lt_irrefl _)
      · exact h

def twoFundRows : List PerfRow :=
  [⟨some "A", some 0, some 100, some 0⟩, ⟨some "A", some 1, some 110, some 0⟩,
   ⟨some "B", some 0, some 100, some 0⟩, ⟨some "B", some 1, some 120, some 0⟩]

def entryA1 : PerfEntry := ⟨"A", 1, 110, 0, some 100, FVal.real (1/10)⟩

def entryB1 : PerfEntry := ⟨"B", 1, 120, 0, some 100, FVal.real (1/5)⟩

/-- Witness for C7: two funds over two periods; the selected fund B's
return 0.2 dominates fund A's 0.1 in the shared period. -/
theorem perf_best_unique_and_max_witness :
    (generate_performance_report twoFundRows).Pairwise (fun a b => a.dt ≠ b.dt)
    ∧ fvalLe entryA1.ror entryB1.ror = true :=
  ⟨(perf_best_unique_and_max twoFundRows).1,
   (perf_best_unique_and_max twoFundRows).2 entryB1 (by with_unfolding_all decide)
     entryA1 (by with_unfolding_all decide) (by decide)⟩

/-! Claim theorem C10: rows with undefined fund or date are dropped. -/

theorem rowKey_none (r : PerfRow) (h : (r.fund.isSome && r.dt.isSome) = false) :
    rowKey r = none := by
  unfold rowKey
  cases hf : r.fund <;> cases hd : r.dt <;> simp_all

theorem filterMap_rowKey_filter :
    ∀ rows : List PerfRow,
      (rows.filter (fun r => r.fund.isSome && r.dt.isSome)).filterMap rowKey
        = rows.filterMap rowKey
  | [] => rfl
  | r :: rest => by
    by_cases hg : (r.fund.isSome && r.dt.isSome) = true
    · simp only [List.filter_cons, hg, if_pos, List.filterMap_cons,
        filterMap_rowKey_filter rest]
    · have hk := rowKey_none r (by simpa using hg)
      simp [List.filter_cons, hg, List.filterMap_cons, hk,
        filterMap_rowKey_filter rest]

theorem groupRows_filter (rows : List PerfRow) (k : String × Int) :
    groupRows (rows.filter (fun r => r.fund.isSome && r.dt.isSome)) k
      = groupRows rows k := by
  unfold groupRows
  induction rows with
  | nil => rfl
  | cons r rest ih =>
    by_cases hg : (r.fund.isSome && r.dt.isSome) = true
    · simp only [List.filter_cons, hg, if_pos]
      by_cases hk : rowKey r = some k <;> simp [hk, ih]
    · have hk := rowKey_none r (by simpa using hg)
      simp [List.filter_cons, hg, hk, ih]

/-- C10: holdings rows with undefined fund name or undefined report date
contribute to no (fund, period) aggregate and cannot influence the
performance report: dropping them leaves the monthly aggregation and the
whole report unchanged. -/
theorem perf_ignores_undefined_rows (rows : List PerfRow) :
    monthlyAgg (rows.filter (fun r => r.fund.isSome && r.dt.isSome)) = monthlyAgg rows
    ∧ generate_performance_report (rows.filter (fun r => r.fund.isSome && r.dt.isSome))
        = generate_performance_report rows := by
  have h1 : monthlyAgg (rows.filter (fun r => r.fund.isSome && r.dt.isSome))
      = monthlyAgg rows := by
    unfold monthlyAgg groupKeys
    rw [filterMap_rowKey_filter]
    apply List.map_congr_left
    intro k _
    rw [groupRows_filter]
  refine ⟨h1, ?_⟩
  unfold generate_performance_report keptEntries perfEntries sortedMonthly
  rw [h1]

end InvestmentFunds
